import Mathlib

/-!
Verification development for the catalog matching engine of
`bom_csv_multi_distributor.py` (KiCAD Multi-BOM plugin).

Modelling conventions:
* Python floats are modelled as exact rationals (`ℚ`).  The engine rounds
  every parsed value to 15 decimal places precisely to suppress binary
  floating-point noise, so the exact-decimal idealization coincides with the
  intended behaviour on the engine's values.
* Rational arithmetic is phrased through `mkRat` / `qmul` (kernel-reducible
  forms of division and multiplication) so that concrete runs of the engine
  can be evaluated by `decide`; `qmul_eq` ties them to the standard algebra.
* Python's `str()` rendering of a float is modelled by `pyStr`, which
  reproduces CPython's positional/scientific formatting rule
  (scientific iff the decimal exponent is `< -4` or `≥ 16`).
* A Python `dict` is modelled as an association list with first-match update,
  observationally identical because keys in a Python dict are unique.
* Character predicates (`isdigit`, `isalpha`, `isalnum`) are modelled on the
  ASCII range, which covers all data the engine handles.
-/

/-- Kernel-reducible multiplication on `ℚ` (`Rat.mul` itself is irreducible). -/
def qmul (a b : ℚ) : ℚ := mkRat (a.num * b.num) (a.den * b.den)

/-- Character for a decimal digit `d < 10` (total, clamped at `9`). -/
def digitChar (d : Nat) : Char :=
  match d with
  | 0 => '0' | 1 => '1' | 2 => '2' | 3 => '3' | 4 => '4'
  | 5 => '5' | 6 => '6' | 7 => '7' | 8 => '8' | _ => '9'

/-- Numeric value of a decimal digit character. -/
def digitVal (c : Char) : Nat := c.toNat - 48

/-- Decimal digits of `n` (big-endian), driven by fuel for structural recursion. -/
def natDigitsAux : Nat → Nat → List Char
  | 0, _ => []
  | fuel + 1, n =>
    if n = 0 then []
    else natDigitsAux fuel (n / 10) ++ [digitChar (n % 10)]

/-- Decimal digit string of a natural number. -/
def natDigitString (n : Nat) : List Char :=
  if n = 0 then ['0'] else natDigitsAux n n

/-- Value of a big-endian decimal digit string. -/
def parseDigits (cs : List Char) : Nat :=
  cs.foldl (fun a c => 10 * a + digitVal c) 0

/-- Smallest `k ≤ 15` such that `q * 10^k` is an integer (the engine's values
all have the form `n / 10^15`, so the search succeeds on them). -/
def decExp (q : ℚ) : Option Nat :=
  (List.range 16).find? (fun k => (qmul q ((10:ℚ)^k)).den == 1)

/-- Drop trailing `'0'` characters. -/
def stripTrailingZeros (s : List Char) : List Char :=
  (s.reverse.dropWhile (fun c => c == '0')).reverse

/-- Exponent digits of CPython float repr: always at least two digits. -/
def padExp (n : Nat) : List Char :=
  if n < 10 then '0' :: natDigitString n else natDigitString n

/-- CPython `str()` of a positive float with a finite decimal expansion:
positional notation when the decimal exponent is in `[-4, 16)`, otherwise
scientific notation with the significant digits as mantissa. -/
def pyStrPos (q : ℚ) : List Char :=
  match decExp q with
  | Option.none => ['?']
  | some k =>
    let n := (qmul q ((10:ℚ)^k)).num.toNat
    let s := natDigitString n
    let len := s.length
    let x : Int := (len : Int) - 1 - (k : Int)
    if -4 ≤ x ∧ x < 16 then
      if k = 0 then s ++ ['.', '0']
      else if 0 ≤ x then s.take (len - k) ++ '.' :: s.drop (len - k)
      else '0' :: '.' :: (List.replicate (k - len) '0' ++ s)
    else
      let sig := stripTrailingZeros s
      let mant := if sig.length = 1 then sig else sig.take 1 ++ '.' :: sig.drop 1
      mant ++ 'e' :: (if x < 0 then '-' :: padExp (-x).toNat else '+' :: padExp x.toNat)

/-- CPython `str()` of a float value, modelled on exact rationals. -/
def pyStr (q : ℚ) : String :=
  if q = 0 then "0.0"
  else if q < 0 then String.mk ('-' :: pyStrPos (-q))
  else String.mk (pyStrPos q)

/-- Does `pyStr` render `q` in positional (non-scientific) notation? -/
def rendersPositional (q : ℚ) : Bool :=
  q == 0 ||
  (0 < q &&
    match decExp q with
    | Option.none => false
    | some k =>
      let len := (natDigitString (qmul q ((10:ℚ)^k)).num.toNat).length
      let x : Int := (len : Int) - 1 - (k : Int)
      decide (-4 ≤ x ∧ x < 16))

/-- A Python runtime value as it reaches an f-string / `str()` call:
a float, a string, or `None`. -/
inductive PyVal where
  | num (q : ℚ)
  | str (s : String)
  | pynone
deriving DecidableEq

/-- Model of `str()` of a Python value (`str(None) = "None"`). -/
def PyVal.render : PyVal → String
  | PyVal.num q => pyStr q
  | PyVal.str s => s
  | PyVal.pynone => "None"

/-- The `MAGS` table of `normalizeValue` (SI magnitude letters → exponent). -/
def MAGS : List (Char × Int) :=
  [('p', -12), ('n', -9), ('u', -6), ('µ', -6), ('m', -3), ('k', 3), ('M', 6), ('G', 9)]

/-- The character scan of `normalizeValue`: accumulate digit / dot characters
into the literal; a magnitude letter sets the exponent when it is still 0
(Python's `elif (not mag and c in MAGS)`); other characters are dropped. -/
def scanValue : List Char → List Char → Int → List Char × Int
  | [], val, mag => (val, mag)
  | c :: cs, val, mag =>
    if c.isDigit || c == '.' then scanValue cs (val ++ [c]) mag
    else if mag == 0 then
      match MAGS.lookup c with
      | some m => scanValue cs val m
      | Option.none => scanValue cs val mag
    else scanValue cs val mag

/-- Python `float()` on a string made of digits and dots (the only strings the
scan can produce): succeeds iff there is at most one dot and at least one
digit, yielding the standard decimal reading
`intpart.fracpart = (intpart * 10^|fracpart| + fracpart) / 10^|fracpart|`. -/
def parsePyFloat (cs : List Char) : Option ℚ :=
  if cs.count '.' ≤ 1 ∧ cs.any Char.isDigit then
    let ip := cs.takeWhile (fun c => c ≠ '.')
    let fp := (cs.dropWhile (fun c => c ≠ '.')).drop 1
    some (mkRat (parseDigits ip * 10 ^ fp.length + parseDigits fp) (10 ^ fp.length))
  else Option.none

/-- Round to the nearest integer, ties to even (CPython `round`), phrased on
the numerator/denominator so that it is kernel-reducible: with `f = ⌊q⌋`, the
fractional part `q - f` compares to `1/2` as `2*(num - f*den)` compares to
`den`. -/
def roundHalfEven (q : ℚ) : ℤ :=
  let f := Rat.floor q
  let rn := 2 * (q.num - f * (q.den : ℤ))
  if rn < (q.den : ℤ) then f
  else if (q.den : ℤ) < rn then f + 1
  else if f % 2 = 0 then f else f + 1

/-- Python `round(x, 15)` on the exact-rational model. -/
def round15 (q : ℚ) : ℚ := mkRat (roundHalfEven (qmul q ((10:ℚ)^15))) (10^15)

/-- Model of `10**mag` for a (possibly negative) integer exponent. -/
def pow10 (m : ℤ) : ℚ :=
  if 0 ≤ m then (10:ℚ) ^ m.toNat else mkRat 1 (10 ^ (-m).toNat)

/-- Model of `normalizeValue` of the plugin: normalize commas to dots, scan for the
literal and the magnitude, parse the literal, scale by `10^mag` and round to
15 decimal places; `None` when the literal does not parse. -/
def normalizeValue (rawValue : String) : Option ℚ :=
  let cs := rawValue.toList.map (fun c => if c == ',' then '.' else c)
  let vm := scanValue cs [] 0
  match parsePyFloat vm.1 with
  | some v => some (round15 (qmul v (pow10 vm.2)))
  | Option.none => Option.none

/-- ASCII lower-casing of one character (kernel-reducible form of
`Char.toLower`). -/
def charLower (c : Char) : Char :=
  if 65 ≤ c.toNat ∧ c.toNat ≤ 90 then Char.ofNat (c.toNat + 32) else c

/-- ASCII upper-casing of one character. -/
def charUpper (c : Char) : Char :=
  if 97 ≤ c.toNat ∧ c.toNat ≤ 122 then Char.ofNat (c.toNat - 32) else c

/-- Python `s.lower()` (ASCII). -/
def pyLower (s : String) : String := String.mk (s.toList.map charLower)

/-- Python `s.upper()` (ASCII). -/
def pyUpper (s : String) : String := String.mk (s.toList.map charUpper)

/-- Model of `onlyAlphanum` of the plugin: keep only alphanumeric characters. -/
def onlyAlphanum (inStr : String) : String :=
  String.mk (inStr.toList.filter Char.isAlphanum)

/-- Python substring test `needle in hay` on character lists. -/
def listContains (needle : List Char) : List Char → Bool
  | [] => needle.isEmpty
  | c :: cs => needle.isPrefixOf (c :: cs) || listContains needle cs

/-- Python substring test `needle in hay` on strings. -/
def pyIn (needle hay : String) : Bool := listContains needle.toList hay.toList

/-- Python `s.split(":")[-1]`: the final colon-delimited segment, i.e. the
suffix after the last colon. -/
def pySplitLastColon (s : String) : String :=
  String.mk ((s.toList.reverse.takeWhile (fun c => c ≠ ':')).reverse)

/-- Model of `CachedJLCPCBPart`: one schematic-declared component observation. -/
structure CachedJLCPCBPart where
  jlcpcbNum : String
  ref : String
  value : String
  footprint : String
deriving DecidableEq

/-- Construction of a `CachedJLCPCBPart` in the BoM loop: the footprint is
stored as `comp.getFootprint().split(":")[-1]`. -/
def mkCachedPart (num ref value footprint : String) : CachedJLCPCBPart :=
  ⟨num, ref, value, pySplitLastColon footprint⟩

/-- Model of `JLCPCBPartData`: one supplier catalog record. -/
structure JLCPCBPartData where
  partNum : String
  type : String
  value : String
  normalValue : Option ℚ
  footprint : String
  edited : String
  partTier : String
deriving DecidableEq

/-- Model of `JLCPCBPartData.__init__`: `normalValue` is derived from `value`. -/
def JLCPCBPartData.make (partNum type value footprint edited tier : String) :
    JLCPCBPartData :=
  { partNum := partNum, type := type, value := value,
    normalValue := normalizeValue value, footprint := footprint,
    edited := edited, partTier := tier }

def JLCPCBPartData.getIsBasic (p : JLCPCBPartData) : Bool := p.partTier == "B"

def JLCPCBPartData.getIsPreferred (p : JLCPCBPartData) : Bool := p.partTier == "P"

def JLCPCBPartData.getIsExtended (p : JLCPCBPartData) : Bool := p.partTier == "E"

def JLCPCBPartData.getPartNum (p : JLCPCBPartData) : String := p.partNum

def JLCPCBPartData.getValue (p : JLCPCBPartData) : String := p.value

def JLCPCBPartData.getFootprint (p : JLCPCBPartData) : String := p.footprint

/-- Model of `checkMatchType`: strip the reference designator to its alphabetic
characters and compare case-insensitively with the record's type. -/
def JLCPCBPartData.checkMatchType (p : JLCPCBPartData) (inType : String) : Bool :=
  let cleanType := String.mk (inType.toList.filter Char.isAlpha)
  pyLower p.type == pyLower cleanType

/-- Model of `getNormalizedValue`: the normalized value when parsing succeeded,
otherwise the raw value text (a Python union of float and str). -/
def JLCPCBPartData.getNormalizedValue (p : JLCPCBPartData) : PyVal :=
  match p.normalValue with
  | some q => PyVal.num q
  | Option.none => PyVal.str p.value

/-- Model of `checkMatchValue`: normalize the incoming value (falling back to its raw
text), take the record's normalized-or-raw value, and test
`str(rawVal) in str(cleanVal)` (substring containment of the renderings). -/
def JLCPCBPartData.checkMatchValue (p : JLCPCBPartData) (inVal : String) : Bool :=
  let cleanVal : PyVal :=
    match normalizeValue inVal with
    | some q => PyVal.num q
    | Option.none => PyVal.str inVal
  let rawVal : PyVal :=
    match p.normalValue with
    | some q => PyVal.num q
    | Option.none => PyVal.str p.value
  pyIn rawVal.render cleanVal.render

/-- Model of `checkMatchFootprint`: last colon segment of the incoming footprint,
stripped to alphanumerics and uppercased; the similarly cleaned record
footprint must appear inside it. -/
def JLCPCBPartData.checkMatchFootprint (p : JLCPCBPartData) (inFoot : String) : Bool :=
  let cleanFoot := pyUpper (onlyAlphanum (pySplitLastColon inFoot))
  let selfFoot := pyUpper (onlyAlphanum p.footprint)
  pyIn selfFoot cleanFoot

/-- The diagnostic for a type mismatch. -/
def typeMismatchMsg (p : JLCPCBPartData) (part : CachedJLCPCBPart) : String :=
  "[" ++ part.ref ++ "] is expected to be type \"" ++ p.type ++ "\""

/-- The diagnostic for a value mismatch. -/
def valueMismatchMsg (p : JLCPCBPartData) (part : CachedJLCPCBPart) : String :=
  "[" ++ part.ref ++ "]\x27s value is \"" ++ part.value ++ "\", expected \"" ++ p.value ++ "\""

/-- The diagnostic for a footprint mismatch. -/
def footprintMismatchMsg (p : JLCPCBPartData) (part : CachedJLCPCBPart) : String :=
  "[" ++ part.ref ++ "]\x27s footprint is \"" ++ part.footprint ++ "\", expected \"" ++ p.footprint ++ "\""

/-- Model of `checkMatchCachedPart`: run the three dimension checks and return the
first failing applicable dimension's message, in the fixed order
type → value → footprint; empty string when everything applicable passes. -/
def JLCPCBPartData.checkMatchCachedPart (p : JLCPCBPartData) (part : CachedJLCPCBPart) : String :=
  let mType := p.checkMatchType part.ref
  let mValue := p.checkMatchValue part.value
  let mFoot := p.checkMatchFootprint part.footprint
  if p.type ≠ "" ∧ mType = false then typeMismatchMsg p part
  else if p.value ≠ "" ∧ mValue = false then valueMismatchMsg p part
  else if p.footprint ≠ "" ∧ mFoot = false then footprintMismatchMsg p part
  else ""

/-- One catalog source row (fields of `JLCPCB_Part_Database.csv`). -/
structure Row where
  number : String
  type : String
  value : String
  footprint : String
  tier : String
  edited : String
deriving DecidableEq

/-- The record a catalog row is loaded into. -/
def mkPartData (row : Row) : JLCPCBPartData :=
  JLCPCBPartData.make row.number row.type row.value row.footprint row.edited row.tier

/-- Python `dict` assignment `d[k] = v` on an association list: replace the
value at the (unique) existing key, else append.  Keys of a Python dict are
unique, so first-match replacement models dict assignment exactly. -/
def dictUpdate : List (String × JLCPCBPartData) → String → JLCPCBPartData →
    List (String × JLCPCBPartData)
  | [], k, v => [(k, v)]
  | (k0, v0) :: rest, k, v =>
    if k0 == k then (k0, v) :: rest else (k0, v0) :: dictUpdate rest k v

/-- Python `d[k]` / `k in d` on the association list. -/
def dictFind : List (String × JLCPCBPartData) → String → Option JLCPCBPartData
  | [], _ => Option.none
  | (k0, v0) :: rest, k => if k0 == k then some v0 else dictFind rest k

/-- The row loop of `JLCPCBPartDatabase.__init__`: build the primary map
`self.parts`, overwriting on duplicate part numbers. -/
def loadParts (rows : List Row) : List (String × JLCPCBPartData) :=
  rows.foldl (fun d row => dictUpdate d row.number (mkPartData row)) []

/-- The composite bucket key of `generatePartCache`:
`f"{partVal}{partFoot}"` with `partVal = part.getNormalizedValue()`. -/
def partKey (p : JLCPCBPartData) : String :=
  p.getNormalizedValue.render ++ p.getFootprint

/-- Append `p` to the bucket at key `k` (`cache[hash].append(part)`), or start
a new bucket (`cache[hash] = [part]`). -/
def cacheAdd : List (String × List JLCPCBPartData) → String → JLCPCBPartData →
    List (String × List JLCPCBPartData)
  | [], k, p => [(k, [p])]
  | (k0, ps) :: rest, k, p =>
    if k0 == k then (k0, ps ++ [p]) :: rest else (k0, ps) :: cacheAdd rest k p

/-- Model of `generatePartCache`: iterate over the primary map (one entry per distinct
part number) and bucket each record under its composite key. -/
def generatePartCache (parts : List (String × JLCPCBPartData)) :
    List (String × List JLCPCBPartData) :=
  parts.foldl (fun c kv => cacheAdd c (partKey kv.2) kv.2) []

/-- Bucket lookup in the secondary index. -/
def cacheFind : List (String × List JLCPCBPartData) → String → Option (List JLCPCBPartData)
  | [], _ => Option.none
  | (k0, ps) :: rest, k => if k0 == k then some ps else cacheFind rest k

/-- The constant `PLUGIN_VERSION` of the script. -/
def PLUGIN_VERSION : String := "Oct.28.2024 (V1.0.12)"

/-- Model of `JLCPCBPartDatabase`: primary map plus derived secondary index, together
with the snapshot-validation fields set by `__init__`. -/
structure JLCPCBPartDatabase where
  srcHash : String
  srcPluginVer : String
  parts : List (String × JLCPCBPartData)
  partsLookup : List (String × List JLCPCBPartData)
deriving DecidableEq

/-- Model of `JLCPCBPartDatabase.__init__` on already-parsed CSV rows. -/
def JLCPCBPartDatabase.load (rows : List Row) (dbHash : String) : JLCPCBPartDatabase :=
  let parts := loadParts rows
  { srcHash := dbHash, srcPluginVer := PLUGIN_VERSION,
    parts := parts, partsLookup := generatePartCache parts }

/-- Model of `getPart`: primary-map lookup. -/
def JLCPCBPartDatabase.getPart (db : JLCPCBPartDatabase) (partNum : String) :
    Option JLCPCBPartData :=
  dictFind db.parts partNum

/-- The query-side composite key of `getBasicPartNum`:
`f"{indVal}{footprint}"` with `indVal = normalizeValue(value)` — note that a
failed normalization renders as the literal text `"None"`. -/
def queryKey (value footprint : String) : String :=
  (match normalizeValue value with
   | some q => PyVal.num q
   | Option.none => PyVal.pynone).render ++ footprint

/-- The bucket scan of `getBasicPartNum`: return the first Basic entry
immediately; remember every Preferred entry as the last-resort answer
(so the last Preferred wins); otherwise the accumulated last resort. -/
def getBasicScan : List JLCPCBPartData → Option (String × String) → Option (String × String)
  | [], pref => pref
  | p :: ps, pref =>
    if p.getIsBasic then some (p.getPartNum, "B")
    else if p.getIsPreferred then getBasicScan ps (some (p.getPartNum, "P"))
    else getBasicScan ps pref

/-- Model of `getBasicPartNum` on an explicit value/footprint; `(None, None)` is
modelled as `Option.none`. -/
def JLCPCBPartDatabase.getBasicPartNum (db : JLCPCBPartDatabase) (value footprint : String) :
    Option (String × String) :=
  match cacheFind db.partsLookup (queryKey value footprint) with
  | some parts => getBasicScan parts Option.none
  | Option.none => Option.none

/-- Model of `getBasicPartNum(cachedPart=...)`: load value and footprint from the
cached part. -/
def JLCPCBPartDatabase.getBasicPartNumCached (db : JLCPCBPartDatabase)
    (part : CachedJLCPCBPart) : Option (String × String) :=
  db.getBasicPartNum part.value part.footprint

/-- Outcome of one iteration of the sanity-check loop. -/
inductive SanityOutcome where
  | pass
  | fail (reason : String)
  | unknown
deriving DecidableEq

/-- Tier display name used in suggestion messages. -/
def tierName (tier : String) : String := if tier == "B" then "Basic" else "Preferred"

/-- Suggestion message for a part that is absent from the catalog. -/
def altUnknownMsg (item : CachedJLCPCBPart) (pNum tier : String) : String :=
  "ALT: [" ++ item.ref ++ "] Part " ++ pNum ++ " (" ++ tierName tier ++
    ") could replace " ++ item.jlcpcbNum ++ " (Unknown)"

/-- Suggestion message for a matched Extended-tier part. -/
def altExtendedMsg (item : CachedJLCPCBPart) (partNum pNum tier : String) : String :=
  "ALT: [" ++ item.ref ++ "] Part " ++ pNum ++ " (" ++ tierName tier ++
    ") could replace " ++ partNum ++ " (Extended)"

/-- One iteration of the JLCPCB parts sanity-check loop: look the declared
part number up; if absent, report unknown and consult the substitution
lookup; if present and matching, consult the substitution lookup only for
Extended-tier records; if present and mismatching, report the diagnostic and
do not consult the substitution lookup. -/
def sanityStep (db : JLCPCBPartDatabase) (item : CachedJLCPCBPart) :
    SanityOutcome × Option String :=
  match db.getPart item.jlcpcbNum with
  | Option.none =>
    (SanityOutcome.unknown,
      match db.getBasicPartNumCached item with
      | some (pNum, tier) => some (altUnknownMsg item pNum tier)
      | Option.none => Option.none)
  | some part =>
    let res := part.checkMatchCachedPart item
    if res == "" then
      if part.getIsExtended then
        match db.getBasicPartNumCached item with
        | some (pNum, tier) => (SanityOutcome.pass, some (altExtendedMsg item part.partNum pNum tier))
        | Option.none => (SanityOutcome.pass, Option.none)
      else (SanityOutcome.pass, Option.none)
    else (SanityOutcome.fail res, Option.none)

/-- Result of `pickle.load` on the snapshot file: a database object, or an
exception (corrupt / unreadable pickle). -/
inductive UnpickleResult where
  | ok (db : JLCPCBPartDatabase)
  | corrupt
deriving DecidableEq

/-- Model of `loadJLCPCBDatabase`, with the file system abstracted: `dbRows` is the
parsed CSV when the database file exists, `dbHash` its content fingerprint,
`pkl` the unpickling outcome when the snapshot file exists.  The returned
flag records whether a freshly built snapshot was persisted
(`pickle.dump`).  The code wraps `pickle.load` in no exception handler, so a
corrupt snapshot propagates as an error. -/
def loadJLCPCBDatabase (dbRows : Option (List Row)) (dbHash : String)
    (pkl : Option UnpickleResult) : Except Unit (Option JLCPCBPartDatabase × Bool) :=
  match dbRows with
  | Option.none => Except.ok (Option.none, false)
  | some rows =>
    match pkl with
    | some UnpickleResult.corrupt => Except.error ()
    | some (UnpickleResult.ok cached) =>
      if cached.srcHash == dbHash && cached.srcPluginVer == PLUGIN_VERSION then
        Except.ok (some cached, false)
      else
        Except.ok (some (JLCPCBPartDatabase.load rows dbHash), true)
    | Option.none => Except.ok (some (JLCPCBPartDatabase.load rows dbHash), true)

/-- Total number of bucket entries in the secondary index. -/
def cacheSum : List (String × List JLCPCBPartData) → Nat
  | [] => 0
  | kv :: rest => kv.2.length + cacheSum rest


/-! ### Helper lemmas -/

theorem dictFind_dictUpdate (d : List (String × JLCPCBPartData)) (k k' : String)
    (v : JLCPCBPartData) :
    dictFind (dictUpdate d k v) k' = if k' = k then some v else dictFind d k' := by
  induction d with
  | nil =>
    by_cases h : k' = k
    · subst h; simp [dictUpdate, dictFind]
    · simp [dictUpdate, dictFind, h, beq_iff_eq, Ne.symm h]
  | cons kv rest ih =>
    obtain ⟨k0, v0⟩ := kv
    by_cases h0 : k0 = k
    · subst h0
      by_cases h1 : k' = k0
      · subst h1; simp [dictUpdate, dictFind]
      · simp [dictUpdate, dictFind, beq_iff_eq, h1, Ne.symm h1]
    · by_cases h1 : k0 = k'
      · have h2 : ¬ k' = k := fun hh => h0 (h1.trans hh)
        simp [dictUpdate, dictFind, beq_iff_eq, h0, h1, h2]
      · simp [dictUpdate, dictFind, beq_iff_eq, h0, h1, ih]

theorem loadParts_find (rows : List Row) (d : List (String × JLCPCBPartData)) (pn : String) :
    dictFind (rows.foldl (fun d row => dictUpdate d row.number (mkPartData row)) d) pn =
      match rows.reverse.find? (fun r => r.number == pn) with
      | some r => some (mkPartData r)
      | Option.none => dictFind d pn := by
  induction rows generalizing d with
  | nil => rfl
  | cons r rows ih =>
    rw [List.foldl_cons, ih, List.reverse_cons, List.find?_append]
    cases hfind : rows.reverse.find? (fun r => r.number == pn) with
    | some r' => rfl
    | none =>
      simp only [Option.none_or, List.find?_singleton]
      by_cases h : r.number = pn
      · simp [h, dictFind_dictUpdate]
      · have h2 : ¬ pn = r.number := fun hh => h hh.symm
        simp [h, beq_iff_eq, dictFind_dictUpdate, h2]

theorem cacheSum_cacheAdd (c : List (String × List JLCPCBPartData)) (k : String)
    (p : JLCPCBPartData) : cacheSum (cacheAdd c k p) = cacheSum c + 1 := by
  induction c with
  | nil => simp [cacheAdd, cacheSum]
  | cons kv rest ih =>
    obtain ⟨k0, ps⟩ := kv
    by_cases h : k0 = k
    · subst h; simp [cacheAdd, cacheSum]; omega
    · simp [cacheAdd, cacheSum, beq_iff_eq, h, ih]; omega

theorem generatePartCache_sum (parts : List (String × JLCPCBPartData))
    (c : List (String × List JLCPCBPartData)) :
    cacheSum (parts.foldl (fun c kv => cacheAdd c (partKey kv.2) kv.2) c) =
      cacheSum c + parts.length := by
  induction parts generalizing c with
  | nil => simp
  | cons kv rest ih =>
    rw [List.foldl_cons, ih, cacheSum_cacheAdd]
    simp [List.length_cons]
    omega

theorem cons_getLast? {α : Type} (a : α) (l : List α) :
    (a :: l).getLast? = some (l.getLast?.getD a) := by
  induction l generalizing a with
  | nil => rfl
  | cons b t ih => rw [List.getLast?_cons_cons, ih b]; rfl

theorem getBasicScan_characterization (l : List JLCPCBPartData)
    (acc : Option (String × String)) :
    getBasicScan l acc =
      match l.find? (fun p => p.getIsBasic) with
      | some p => some (p.getPartNum, "B")
      | Option.none =>
        match (l.filter (fun p => p.getIsPreferred)).getLast? with
        | some p => some (p.getPartNum, "P")
        | Option.none => acc := by
  induction l generalizing acc with
  | nil => rfl
  | cons p ps ih =>
    by_cases hb : p.getIsBasic
    · simp [getBasicScan, hb, List.find?_cons_of_pos]
    · by_cases hp : p.getIsPreferred
      · rw [getBasicScan, if_neg (by simp [hb]), if_pos hp, ih,
          List.find?_cons_of_neg _ (by simp [hb]), List.filter_cons_of_pos hp,
          cons_getLast?]
        cases hf : ps.find? (fun p => p.getIsBasic) with
        | some q => rfl
        | none => cases (ps.filter (fun p => p.getIsPreferred)).getLast? <;> rfl
      · rw [getBasicScan, if_neg (by simp [hb]), if_neg hp, ih,
          List.find?_cons_of_neg _ (by simp [hb]), List.filter_cons_of_neg (by simp [hp])]

theorem stringAppend_cancel_right {a b c : String} (h : a ++ c = b ++ c) : a = b := by
  have hd : a.data ++ c.data = b.data ++ c.data := by
    have h2 := congrArg String.data h
    simpa [String.data_append] using h2
  cases a; cases b
  exact congrArg String.mk (List.append_cancel_right hd)

/-! ### Claim theorems -/

/-- Claim C1.  Evaluation of `normalizeValue` at the input `"3k3"`: the code
returns `33000.0`, not the `3300.0` promised by the claim and by the
function's own docstring — the magnitude letter is merely skipped by the
scan, so the digits after it are appended to the literal (`float("33")`,
then `· 10^3`); no decimal point is substituted at the letter's position. -/
theorem c1_normalize_3k3_eval :
    normalizeValue "3k3" = some 33000 ∧ normalizeValue "3k3" ≠ some 3300 := by
  decide

/-- Claim C2 (corrected).  For every catalog load, the primary-map entry for
a part number is the record built from the last input row bearing that part
number; but the secondary index holds exactly one bucket entry per
primary-map entry (per distinct part number) — not per input row — because
`generatePartCache` iterates over `self.parts`, in which duplicate part
numbers have already been collapsed. -/
theorem c2_lastWins_and_bucketCount (rows : List Row) (dbHash pn : String) :
    dictFind (JLCPCBPartDatabase.load rows dbHash).parts pn =
      (rows.reverse.find? (fun r => r.number == pn)).map mkPartData ∧
    cacheSum (JLCPCBPartDatabase.load rows dbHash).partsLookup =
      (JLCPCBPartDatabase.load rows dbHash).parts.length := by
  constructor
  · show dictFind (loadParts rows) pn = _
    unfold loadParts
    rw [loadParts_find rows [] pn]
    cases rows.reverse.find? (fun r => r.number == pn) <;> rfl
  · show cacheSum (generatePartCache (loadParts rows)) = (loadParts rows).length
    unfold generatePartCache
    rw [generatePartCache_sum]
    simp [cacheSum]

/-- Claim C2, counterexample: two rows sharing the part number `"P1"` load
into a secondary index with a single bucket entry, while the claim demands
one entry per input row (two). -/
theorem c2_cex_duplicate_rows :
    cacheSum (JLCPCBPartDatabase.load
        [⟨"P1", "", "1k", "F", "B", ""⟩, ⟨"P1", "", "2k", "F", "B", ""⟩] "h").partsLookup = 1 ∧
    ([⟨"P1", "", "1k", "F", "B", ""⟩, ⟨"P1", "", "2k", "F", "B", ""⟩] : List Row).length = 2 := by
  decide

/-- Claim C3.  `getBasicPartNum` returns the first Basic-tier entry of the
bucket in insertion order; failing that, the last Preferred-tier entry
encountered during the scan; failing both, absence (`(None, None)`). -/
theorem c3_getBasicPartNum_first_basic_last_preferred (db : JLCPCBPartDatabase)
    (value footprint : String) :
    db.getBasicPartNum value footprint =
      match cacheFind db.partsLookup (queryKey value footprint) with
      | Option.none => Option.none
      | some bucket =>
        match bucket.find? (fun p => p.getIsBasic) with
        | some p => some (p.getPartNum, "B")
        | Option.none =>
          match (bucket.filter (fun p => p.getIsPreferred)).getLast? with
          | some p => some (p.getPartNum, "P")
          | Option.none => Option.none := by
  unfold JLCPCBPartDatabase.getBasicPartNum
  cases cacheFind db.partsLookup (queryKey value footprint) with
  | none => rfl
  | some bucket => exact getBasicScan_characterization bucket Option.none

/-- Claim C4, counterexample: on the spec's own scenario the type check
compares the alphabetic prefix `"C"` of the reference designator against the
full catalog type `"Capacitor"`, so the evaluator reports a type mismatch
instead of `Matched`. -/
theorem c4_cex_type_mismatch :
    (mkPartData ⟨"C001", "Capacitor", "10uF", "0603", "B", ""⟩).checkMatchCachedPart
        (mkCachedPart "C001" "C1" "10uF ceramic" "Capacitor_SMD:C_0603") =
      "[C1] is expected to be type \"Capacitor\"" ∧
    "[C1] is expected to be type \"Capacitor\"" ≠ "" := by
  decide

/-- Claim C4 (corrected).  With the catalog type equal to the cleaned
reference-designator prefix `"C"`, the scenario behaves as claimed: all three
dimension checks pass (`Matched`) and, the record being Basic tier, no
substitution suggestion is produced. -/
theorem c4_matched_no_suggestion :
    sanityStep (JLCPCBPartDatabase.load [⟨"C001", "C", "10uF", "0603", "B", ""⟩] "h")
        (mkCachedPart "C001" "C1" "10uF ceramic" "Capacitor_SMD:C_0603") =
      (SanityOutcome.pass, Option.none) := by
  decide

/-- Claim C5, counterexample: an observation whose declared part is present
but mismatches (value `"1k"` against catalog `"2k"`) produces no suggestion,
even though the substitution lookup would have returned the Basic part
`"P1"` — the advisor is not consulted on a mismatch, contradicting
"consulted independently ... regardless of match outcome". -/
theorem c5_cex_no_suggestion_on_mismatch :
    sanityStep
        (JLCPCBPartDatabase.load
          [⟨"P1", "", "1k", "F", "B", ""⟩, ⟨"P2", "", "2k", "F", "E", ""⟩] "h")
        (mkCachedPart "P2" "R9" "1k" "F") =
      (SanityOutcome.fail ("[R9]\x27s value is \"1k\", expected \"2k\""), Option.none) ∧
    (JLCPCBPartDatabase.load
          [⟨"P1", "", "1k", "F", "B", ""⟩, ⟨"P2", "", "2k", "F", "E", ""⟩] "h").getBasicPartNumCached
        (mkCachedPart "P2" "R9" "1k" "F") = some ("P1", "B") := by
  decide

/-- Claim C5 (corrected).  A substitution suggestion is produced only when
the declared part is absent from the catalog, or when it matched and the
catalog record is Extended tier; mismatched observations (and matched
Basic/Preferred ones) never yield a suggestion. -/
theorem c5_suggestion_only_if_unknown_or_matched_extended (db : JLCPCBPartDatabase)
    (item : CachedJLCPCBPart) (h : (sanityStep db item).2 ≠ Option.none) :
    db.getPart item.jlcpcbNum = Option.none ∨
      ∃ part, db.getPart item.jlcpcbNum = some part ∧
        part.checkMatchCachedPart item = "" ∧ part.getIsExtended = true := by
  cases hg : db.getPart item.jlcpcbNum with
  | none => exact Or.inl rfl
  | some part =>
    right
    unfold sanityStep at h
    rw [hg] at h
    simp only at h
    by_cases hr : (part.checkMatchCachedPart item == "") = true
    · by_cases he : part.getIsExtended = true
      · exact ⟨part, rfl, eq_of_beq hr, he⟩
      · rw [if_pos hr, if_neg he] at h
        exact absurd rfl h
    · rw [if_neg hr] at h
      exact absurd rfl h

/-- Witness for C5: a concrete run in which a suggestion is produced (absent
part `"P9"`, Basic substitute available). -/
theorem c5_suggestion_only_if_unknown_or_matched_extended_witness :
    (JLCPCBPartDatabase.load
          [⟨"P1", "", "1k", "F", "B", ""⟩, ⟨"P2", "", "2k", "F", "E", ""⟩] "h").getPart
        (mkCachedPart "P9" "R9" "1k" "F").jlcpcbNum = Option.none ∨
      ∃ part,
        (JLCPCBPartDatabase.load
              [⟨"P1", "", "1k", "F", "B", ""⟩, ⟨"P2", "", "2k", "F", "E", ""⟩] "h").getPart
            (mkCachedPart "P9" "R9" "1k" "F").jlcpcbNum = some part ∧
          part.checkMatchCachedPart (mkCachedPart "P9" "R9" "1k" "F") = "" ∧
          part.getIsExtended = true :=
  c5_suggestion_only_if_unknown_or_matched_extended _ _ (by decide)

/-- Claim C6.  The dimension checks are applied in the fixed order type →
value → footprint and only the first failing applicable dimension's message
is returned: a record failing the type check reports the type-mismatch
message alone, even when the value check fails as well. -/
theorem c6_first_failing_dimension_wins (p : JLCPCBPartData) (obs : CachedJLCPCBPart)
    (ht : p.type ≠ "") (hmt : p.checkMatchType obs.ref = false)
    (_hmv : p.checkMatchValue obs.value = false) :
    p.checkMatchCachedPart obs = typeMismatchMsg p obs := by
  simp [JLCPCBPartData.checkMatchCachedPart, ht, hmt]

/-- Witness for C6: a record failing both the type and the value dimension
reports only the type-mismatch message. -/
theorem c6_first_failing_dimension_wins_witness :
    (JLCPCBPartData.make "P1" "Resistor" "100" "0402" "" "B").checkMatchCachedPart
        (mkCachedPart "P1" "C5" "999" "X") =
      typeMismatchMsg (JLCPCBPartData.make "P1" "Resistor" "100" "0402" "" "B")
        (mkCachedPart "P1" "C5" "999" "X") :=
  c6_first_failing_dimension_wins _ _ (by decide) (by decide) (by decide)

/-- Claim C8, counterexample: when the snapshot is corrupt (`pickle.load`
raises), `loadJLCPCBDatabase` propagates the error — nothing is rebuilt or
persisted and the failure is surfaced to the caller, contradicting
"including when the snapshot is ... corrupt ... no failure is surfaced". -/
theorem c8_cex_corrupt_snapshot :
    loadJLCPCBDatabase (some []) "h" (some UnpickleResult.corrupt) = Except.error () := rfl

/-- Claim C8 (corrected).  Among snapshots that unpickle successfully, the
snapshot is reused iff both the content fingerprint and the plugin-version
tag match its recorded values; otherwise (stale snapshot, or no snapshot)
the index is rebuilt from the source rows and the new snapshot is persisted,
with no failure surfaced; a corrupt snapshot instead surfaces the
unpickling error. -/
theorem c8_snapshot_reuse_iff_fingerprint_and_version (rows : List Row)
    (dbHash : String) (cached : JLCPCBPartDatabase) :
    (loadJLCPCBDatabase (some rows) dbHash (some (UnpickleResult.ok cached)) =
      if cached.srcHash = dbHash ∧ cached.srcPluginVer = PLUGIN_VERSION
      then Except.ok (some cached, false)
      else Except.ok (some (JLCPCBPartDatabase.load rows dbHash), true)) ∧
    (loadJLCPCBDatabase (some rows) dbHash Option.none =
      Except.ok (some (JLCPCBPartDatabase.load rows dbHash), true)) ∧
    (∀ pkl, loadJLCPCBDatabase Option.none dbHash pkl = Except.ok (Option.none, false)) := by
  refine ⟨?_, rfl, fun pkl => rfl⟩
  unfold loadJLCPCBDatabase
  by_cases h1 : cached.srcHash = dbHash <;> by_cases h2 : cached.srcPluginVer = PLUGIN_VERSION <;>
    simp [h1, h2]

/-- Claim C9.  When value normalization fails on both sides, the query-side
key renders the failure as the literal text `"None"` while the record-side
key uses the raw value text; with equal footprints the keys agree exactly
when the record's raw value text is literally `"None"`. -/
theorem c9_failed_normalization_key_asymmetry (row : Row) (v f : String)
    (h1 : normalizeValue row.value = Option.none)
    (h2 : normalizeValue v = Option.none) :
    queryKey v f = "None" ++ f ∧
    partKey (mkPartData row) = row.value ++ row.footprint ∧
    (queryKey v row.footprint = partKey (mkPartData row) ↔ row.value = "None") := by
  have hq : ∀ g, queryKey v g = "None" ++ g := by
    intro g
    unfold queryKey
    rw [h2]
    rfl
  have hp : partKey (mkPartData row) = row.value ++ row.footprint := by
    simp [partKey, mkPartData, JLCPCBPartData.make, JLCPCBPartData.getNormalizedValue,
      JLCPCBPartData.getFootprint, h1, PyVal.render]
  refine ⟨hq f, hp, ?_⟩
  rw [hq row.footprint, hp]
  constructor
  · intro h
    exact (stringAppend_cancel_right h).symm
  · intro h
    rw [h]

/-- Witness for C9: a record with unparsable value `"X"` and footprint `"F"`
is bucketed under `"XF"`, while the query for the same value and footprint
looks up `"NoneF"`. -/
theorem c9_failed_normalization_key_asymmetry_witness :
    queryKey "X" "F" = "None" ++ "F" ∧
    partKey (mkPartData ⟨"P1", "", "X", "F", "B", ""⟩) = "X" ++ "F" ∧
    (queryKey "X" (Row.footprint ⟨"P1", "", "X", "F", "B", ""⟩) =
        partKey (mkPartData ⟨"P1", "", "X", "F", "B", ""⟩) ↔ ("X" : String) = "None") :=
  c9_failed_normalization_key_asymmetry ⟨"P1", "", "X", "F", "B", ""⟩ "X" "F"
    (by decide) (by decide)

/-- Claim C10.  The value check is substring containment on the rendered
values, so it can pass although both sides normalize successfully to
different numbers: catalog value `"1"` renders to `"1.0"`, which occurs
inside the observation rendering `"21.0"`, and `checkMatchValue` accepts
while `1 ≠ 21`. -/
theorem c10_value_check_substring_containment :
    (JLCPCBPartData.make "R1" "" "1" "F" "" "B").checkMatchValue "21" = true ∧
    normalizeValue "1" = some 1 ∧ normalizeValue "21" = some 21 ∧ (1 : ℚ) ≠ 21 ∧
    pyStr 1 = "1.0" ∧ pyStr 21 = "21.0" := by
  decide

/-! ### Renderer/parser roundtrip lemmas (for the normalizer stability claim) -/

theorem digitChar_isDigit (d : Nat) : (digitChar d).isDigit = true := by
  unfold digitChar
  split <;> decide

theorem digitVal_digitChar (d : Nat) (h : d < 10) : digitVal (digitChar d) = d := by
  interval_cases d <;> decide

theorem natDigitsAux_digits (fuel : Nat) :
    ∀ (n : Nat), ∀ c ∈ natDigitsAux fuel n, c.isDigit = true := by
  induction fuel with
  | zero => intro n c hc; simp [natDigitsAux] at hc
  | succ fuel ih =>
    intro n c hc
    by_cases hn : n = 0
    · simp [natDigitsAux, hn] at hc
    · rw [natDigitsAux, if_neg hn] at hc
      rcases List.mem_append.mp hc with h1 | h2
      · exact ih _ c h1
      · rw [List.mem_singleton.mp h2]
        exact digitChar_isDigit _

theorem parseDigits_from (l : List Char) (a : Nat) :
    l.foldl (fun a c => 10 * a + digitVal c) a = a * 10 ^ l.length + parseDigits l := by
  induction l generalizing a with
  | nil => simp [parseDigits]
  | cons c t ih =>
    have h2 : parseDigits (c :: t) = digitVal c * 10 ^ t.length + parseDigits t := by
      rw [parseDigits, List.foldl_cons, ih]
      ring_nf
    rw [List.foldl_cons, ih, h2, List.length_cons, pow_succ]
    ring

theorem parseDigits_append (l1 l2 : List Char) :
    parseDigits (l1 ++ l2) = parseDigits l1 * 10 ^ l2.length + parseDigits l2 := by
  rw [parseDigits, List.foldl_append, ← parseDigits, parseDigits_from]

theorem parseDigits_replicate_zero (m : Nat) : parseDigits (List.replicate m '0') = 0 := by
  induction m with
  | zero => rfl
  | succ m ih =>
    rw [List.replicate_succ, parseDigits, List.foldl_cons]
    have h0 : (10 * 0 + digitVal '0') = 0 := by decide
    rw [h0]
    exact ih

theorem parseDigits_natDigitsAux (fuel : Nat) :
    ∀ n : Nat, n ≤ fuel → parseDigits (natDigitsAux fuel n) = n := by
  induction fuel with
  | zero =>
    intro n h
    interval_cases n
    rfl
  | succ fuel ih =>
    intro n h
    by_cases hn : n = 0
    · subst hn; simp [natDigitsAux, parseDigits]
    · rw [natDigitsAux, if_neg hn, parseDigits_append,
        ih (n / 10) (by omega)]
      have hd : parseDigits [digitChar (n % 10)] = n % 10 := by
        show 10 * 0 + digitVal (digitChar (n % 10)) = n % 10
        rw [digitVal_digitChar _ (Nat.mod_lt _ (by norm_num))]
        omega
      rw [hd, List.length_singleton]
      omega

theorem parseDigits_natDigitString (n : Nat) : parseDigits (natDigitString n) = n := by
  by_cases hn : n = 0
  · subst hn; decide
  · rw [natDigitString, if_neg hn]
    exact parseDigits_natDigitsAux n n le_rfl

theorem natDigitString_digits (n : Nat) : ∀ c ∈ natDigitString n, c.isDigit = true := by
  by_cases hn : n = 0
  · subst hn
    intro c hc
    rw [List.mem_singleton.mp hc]
    decide
  · rw [natDigitString, if_neg hn]
    exact natDigitsAux_digits n n

theorem natDigitString_ne_nil (n : Nat) : natDigitString n ≠ [] := by
  by_cases hn : n = 0
  · subst hn; decide
  · rw [natDigitString, if_neg hn]
    cases n with
    | zero => exact absurd rfl hn
    | succ m =>
      rw [natDigitsAux, if_neg hn]
      simp

theorem not_dot_of_digits (l : List Char) (h : ∀ c ∈ l, c.isDigit = true) : '.' ∉ l :=
  fun hmem => absurd (h _ hmem) (by decide)

theorem scanValue_digits (cs : List Char) (h : ∀ c ∈ cs, c.isDigit = true ∨ c = '.') :
    ∀ acc mag, scanValue cs acc mag = (acc ++ cs, mag) := by
  induction cs with
  | nil => intro acc mag; simp [scanValue]
  | cons c t ih =>
    intro acc mag
    have hc := h c (List.mem_cons_self c t)
    have hcond : (c.isDigit || c == '.') = true := by
      rcases hc with h1 | h1
      · simp [h1]
      · simp [h1]
    rw [scanValue, if_pos hcond,
      ih (fun c hc2 => h c (List.mem_cons_of_mem _ hc2)) (acc ++ [c]) mag]
    simp

theorem map_comma_id (cs : List Char) (h : ∀ c ∈ cs, c.isDigit = true ∨ c = '.') :
    cs.map (fun c => if c == ',' then '.' else c) = cs := by
  induction cs with
  | nil => rfl
  | cons c t ih =>
    have hc := h c (List.mem_cons_self c t)
    have hcomma : (c == ',') = false := by
      cases hcc : (c == ',') with
      | false => rfl
      | true =>
        have := eq_of_beq hcc
        subst this
        rcases hc with h1 | h1
        · exact absurd h1 (by decide)
        · exact absurd h1 (by decide)
    rw [List.map_cons, hcomma, ih (fun c hc2 => h c (List.mem_cons_of_mem _ hc2))]
    rfl

theorem takeWhile_dropWhile_dot (l1 l2 : List Char) (h : ∀ c ∈ l1, c ≠ '.') :
    (l1 ++ '.' :: l2).takeWhile (fun c => c ≠ '.') = l1 ∧
    (l1 ++ '.' :: l2).dropWhile (fun c => c ≠ '.') = '.' :: l2 := by
  induction l1 with
  | nil => constructor <;> simp [List.takeWhile, List.dropWhile]
  | cons c t ih =>
    have hc : c ≠ '.' := h c (List.mem_cons_self c t)
    have hi := ih (fun c hc2 => h c (List.mem_cons_of_mem _ hc2))
    constructor
    · simp only [List.cons_append, List.takeWhile_cons, decide_eq_true_eq]
      rw [if_pos hc, hi.1]
    · simp only [List.cons_append, List.dropWhile_cons, decide_eq_true_eq]
      rw [if_pos hc, hi.2]

theorem count_dot_one (l1 l2 : List Char) (h1 : '.' ∉ l1) (h2 : '.' ∉ l2) :
    (l1 ++ '.' :: l2).count '.' = 1 := by
  rw [List.count_append, List.count_cons_self,
    List.count_eq_zero.mpr h1, List.count_eq_zero.mpr h2]

theorem qmul_eq (a b : ℚ) : qmul a b = a * b := by
  unfold qmul
  rw [Rat.mkRat_eq_div]
  push_cast
  rw [← div_mul_div_comm, Rat.num_div_den, Rat.num_div_den]

theorem parse_split (l1 l2 : List Char) (h1 : ∀ c ∈ l1, c.isDigit = true)
    (h2 : ∀ c ∈ l2, c.isDigit = true) (hne : l2 ≠ []) :
    parsePyFloat (l1 ++ '.' :: l2) =
      some (mkRat (parseDigits l1 * 10 ^ l2.length + parseDigits l2) (10 ^ l2.length)) := by
  have hd1 : '.' ∉ l1 := not_dot_of_digits l1 h1
  have hd2 : '.' ∉ l2 := not_dot_of_digits l2 h2
  have hsplit := takeWhile_dropWhile_dot l1 l2 (fun c hc hd => hd1 (hd ▸ hc))
  have hany : (l1 ++ '.' :: l2).any Char.isDigit = true := by
    rw [List.any_eq_true]
    cases l2 with
    | nil => exact absurd rfl hne
    | cons c t =>
      exact ⟨c, by simp, h2 c (List.mem_cons_self c t)⟩
  unfold parsePyFloat
  rw [if_pos ⟨by rw [count_dot_one l1 l2 hd1 hd2], hany⟩]
  simp only [hsplit.1, hsplit.2, List.drop_succ_cons, List.drop_zero]

theorem normalizeValue_digits_string (cs : List Char)
    (hchars : ∀ c ∈ cs, c.isDigit = true ∨ c = '.') :
    normalizeValue (String.mk cs) =
      match parsePyFloat cs with
      | some v => some (round15 v)
      | Option.none => Option.none := by
  unfold normalizeValue
  have htl : (String.mk cs).toList = cs := rfl
  simp only [htl, map_comma_id cs hchars, scanValue_digits cs hchars [] 0, List.nil_append]
  cases hp : parsePyFloat cs with
  | none => rfl
  | some v =>
    simp only
    have hpow : pow10 (0 : ℤ) = 1 := by
      unfold pow10
      norm_num
    rw [hpow]
    have hq1 : qmul v 1 = v := by
      rw [qmul_eq, mul_one]
    rw [hq1]

theorem roundHalfEven_intCast (m : ℤ) : roundHalfEven ((m : ℚ)) = m := by
  unfold roundHalfEven
  rw [Rat.floor_def']
  simp [Rat.num_intCast, Rat.den_intCast]

theorem round15_mkRat_pow15 (m : ℤ) : round15 (mkRat m (10 ^ 15)) = mkRat m (10 ^ 15) := by
  unfold round15
  have h : qmul (mkRat m (10 ^ 15)) ((10 : ℚ) ^ 15) = (m : ℚ) := by
    rw [qmul_eq, Rat.mkRat_eq_div]
    have hcast : ((10 ^ 15 : ℕ) : ℚ) = (10 : ℚ) ^ 15 := by push_cast; ring
    rw [hcast, div_mul_cancel₀ _ (by positivity : ((10 : ℚ) ^ 15) ≠ 0)]
  rw [h, roundHalfEven_intCast]

theorem round15_shape (y : ℚ) : ∃ m : ℤ, round15 y = mkRat m (10 ^ 15) := ⟨_, rfl⟩

theorem normalizeValue_shape (x : String) (q : ℚ) (h : normalizeValue x = some q) :
    ∃ m : ℤ, q = mkRat m (10 ^ 15) := by
  unfold normalizeValue at h
  simp only [] at h
  split at h
  · rename_i v heq
    injection h with h
    exact ⟨_, by rw [← h]; rfl⟩
  · exact absurd h (by simp)

theorem round15_of_normalized (x : String) (q : ℚ) (h : normalizeValue x = some q) :
    round15 q = q := by
  obtain ⟨m, hm⟩ := normalizeValue_shape x q h
  rw [hm, round15_mkRat_pow15]

theorem decExp_den (q : ℚ) (k : Nat) (h : decExp q = some k) :
    (qmul q ((10 : ℚ) ^ k)).den = 1 := by
  have h2 := List.find?_some h
  simpa using h2

theorem q_eq_mkRat_of_den_one (q : ℚ) (k : Nat) (hq : 0 ≤ q)
    (hden : (qmul q ((10 : ℚ) ^ k)).den = 1) :
    q = mkRat ((qmul q ((10 : ℚ) ^ k)).num.toNat) (10 ^ k) := by
  have h1 : ((qmul q ((10 : ℚ) ^ k)).num : ℚ) = qmul q ((10 : ℚ) ^ k) :=
    (Rat.den_eq_one_iff _).mp hden
  have h2 : 0 ≤ (qmul q ((10 : ℚ) ^ k)).num := by
    rw [Rat.num_nonneg, qmul_eq]
    positivity
  rw [Rat.mkRat_eq_div]
  push_cast [Int.toNat_of_nonneg h2]
  rw [h1, qmul_eq]
  field_simp

theorem pyStr_positional_roundtrip (q : ℚ) (hq : q ≠ 0)
    (hpos : rendersPositional q = true) :
    normalizeValue (pyStr q) = some (round15 q) := by
  unfold rendersPositional at hpos
  rw [Bool.or_eq_true] at hpos
  rcases hpos with h0 | hrest
  · exact absurd (by simpa using h0) hq
  rw [Bool.and_eq_true] at hrest
  obtain ⟨hqpos', hcond⟩ := hrest
  have hqpos : 0 < q := by simpa using hqpos'
  cases hk : decExp q with
  | none => rw [hk] at hcond; simp at hcond
  | some k =>
    rw [hk] at hcond
    simp only [decide_eq_true_eq] at hcond
    have hqeq : q = mkRat ((qmul q ((10 : ℚ) ^ k)).num.toNat) (10 ^ k) :=
      q_eq_mkRat_of_den_one q k hqpos.le (decExp_den q k hk)
    set n : Nat := (qmul q ((10 : ℚ) ^ k)).num.toNat with hn
    set s : List Char := natDigitString n with hs
    set len : Nat := s.length with hlen
    have hsd : ∀ c ∈ s, c.isDigit = true := natDigitString_digits n
    have hsne : s ≠ [] := natDigitString_ne_nil n
    have hlenpos : 0 < len := List.length_pos.mpr hsne
    have hpy : pyStr q = String.mk (pyStrPos q) := by
      unfold pyStr
      rw [if_neg hq, if_neg (not_lt.mpr hqpos.le)]
    rw [hpy]
    unfold pyStrPos
    rw [hk]
    simp only [← hn, ← hs, ← hlen]
    rw [if_pos hcond]
    by_cases hk0 : k = 0
    · -- positional, integer value: s ++ ".0"
      rw [if_pos hk0]
      subst hk0
      have hchars : ∀ c ∈ s ++ ['.', '0'], c.isDigit = true ∨ c = '.' := by
        intro c hc
        rcases List.mem_append.mp hc with h1 | h2
        · exact Or.inl (hsd c h1)
        · simp only [List.mem_cons, List.mem_singleton, List.not_mem_nil, or_false] at h2
          rcases h2 with h2 | h2
          · exact Or.inr h2
          · subst h2; exact Or.inl (by decide)
      rw [normalizeValue_digits_string _ hchars,
        parse_split s ['0'] hsd (by decide) (by decide)]
      have hval : (mkRat (parseDigits s * 10 ^ ([('0' : Char)].length) + parseDigits ['0'])
          (10 ^ ([('0' : Char)].length)) : ℚ) = q := by
        have h1 : parseDigits s = n := parseDigits_natDigitString n
        have h2 : parseDigits [('0' : Char)] = 0 := by decide
        rw [hqeq, Rat.mkRat_eq_div, Rat.mkRat_eq_div, h1, h2]
        push_cast
        norm_num
      rw [hval]
    · rw [if_neg hk0]
      by_cases hx0 : 0 ≤ (len : Int) - 1 - (k : Int)
      · -- positional with the dot inside the digit string
        rw [if_pos hx0]
        have hklen : k < len := by omega
        have htd : s.take (len - k) ++ s.drop (len - k) = s := List.take_append_drop _ s
        have htsub : ∀ c ∈ s.take (len - k), c.isDigit = true :=
          fun c hc => hsd c (List.take_subset _ s hc)
        have hdsub : ∀ c ∈ s.drop (len - k), c.isDigit = true :=
          fun c hc => hsd c (List.drop_subset _ s hc)
        have hdlen : (s.drop (len - k)).length = k := by
          rw [List.length_drop, ← hlen]
          omega
        have hdne : s.drop (len - k) ≠ [] := by
          apply List.ne_nil_of_length_pos
          rw [hdlen]
          omega
        have hchars : ∀ c ∈ s.take (len - k) ++ '.' :: s.drop (len - k),
            c.isDigit = true ∨ c = '.' := by
          intro c hc
          rcases List.mem_append.mp hc with h1 | h2
          · exact Or.inl (htsub c h1)
          · simp only [List.mem_cons] at h2
            rcases h2 with h2 | h2
            · exact Or.inr h2
            · exact Or.inl (hdsub c h2)
        rw [normalizeValue_digits_string _ hchars,
          parse_split _ _ htsub hdsub hdne]
        have hsum : parseDigits (s.take (len - k)) * 10 ^ ((s.drop (len - k)).length) +
            parseDigits (s.drop (len - k)) = n := by
          rw [← parseDigits_append, htd]
          exact parseDigits_natDigitString n
        rw [hdlen] at hsum
        have hval : (mkRat (parseDigits (s.take (len - k)) * 10 ^ ((s.drop (len - k)).length) +
            parseDigits (s.drop (len - k))) (10 ^ ((s.drop (len - k)).length)) : ℚ) = q := by
          rw [hqeq, hdlen]
          congr 1
          exact_mod_cast hsum
        rw [hval]
      · -- positional with leading "0."
        rw [if_neg hx0]
        have hlek : len ≤ k := by omega
        have hzd : ∀ c ∈ List.replicate (k - len) '0' ++ s, c.isDigit = true := by
          intro c hc
          rcases List.mem_append.mp hc with h1 | h2
          · rw [(List.eq_of_mem_replicate h1 : c = '0')]
            decide
          · exact hsd c h2
        have hzne : List.replicate (k - len) '0' ++ s ≠ [] := by
          intro hcontra
          exact hsne (List.append_eq_nil.mp hcontra).2
        have hchars : ∀ c ∈ ('0' :: '.' :: (List.replicate (k - len) '0' ++ s)),
            c.isDigit = true ∨ c = '.' := by
          intro c hc
          simp only [List.mem_cons] at hc
          rcases hc with h1 | h1 | h1
          · subst h1; exact Or.inl (by decide)
          · exact Or.inr h1
          · exact Or.inl (hzd c h1)
        rw [normalizeValue_digits_string _ hchars,
          show ('0' :: '.' :: (List.replicate (k - len) '0' ++ s)) =
            ['0'] ++ '.' :: (List.replicate (k - len) '0' ++ s) from rfl,
          parse_split _ _ (by intro c hc; rw [List.mem_singleton.mp hc]; decide) hzd hzne]
        have hzlen : (List.replicate (k - len) '0' ++ s).length = k := by
          rw [List.length_append, List.length_replicate, ← hlen]
          omega
        have hsum : parseDigits ['0'] * 10 ^ ((List.replicate (k - len) '0' ++ s).length) +
            parseDigits (List.replicate (k - len) '0' ++ s) = n := by
          have h1 : parseDigits [('0' : Char)] = 0 := by decide
          rw [h1, parseDigits_append, parseDigits_replicate_zero,
            parseDigits_natDigitString]
          ring
        rw [hzlen] at hsum
        have hval : (mkRat (parseDigits ['0'] * 10 ^ ((List.replicate (k - len) '0' ++ s).length) +
            parseDigits (List.replicate (k - len) '0' ++ s))
            (10 ^ ((List.replicate (k - len) '0' ++ s).length)) : ℚ) = q := by
          rw [hqeq, hzlen]
          congr 1
          exact_mod_cast hsum
        rw [hval]

/-- Claim C7, counterexample: stability fails when the canonical value
renders in scientific notation.  `normalize("4.7u") = 4.7e-06`, whose
rendering re-normalizes to `4.706` (the `e`, `-` and `0`,`6` characters are
scavenged into the literal), not to `4.7e-06`. -/
theorem c7_cex_scientific_render :
    normalizeValue "4.7u" = some (mkRat 47 (10 ^ 7)) ∧
    pyStr (mkRat 47 (10 ^ 7)) = "4.7e-06" ∧
    normalizeValue (pyStr (mkRat 47 (10 ^ 7))) = some (mkRat 4706 1000) ∧
    (mkRat 4706 1000 : ℚ) ≠ mkRat 47 (10 ^ 7) := by
  decide

/-- Claim C7 (corrected).  `normalizeValue` is deterministic, and
re-normalizing the rendered value is stable whenever the rendering is
positional (plain decimal notation, i.e. the value is `0` or its decimal
exponent lies in `[-4, 16)`); for values rendered in scientific notation
(such as `normalize("4.7u")`) stability fails. -/
theorem c7_normalize_deterministic_and_stable :
    (∀ x : String, normalizeValue x = normalizeValue x) ∧
    ∀ (x : String) (q : ℚ), normalizeValue x = some q → rendersPositional q = true →
      normalizeValue (pyStr q) = some q := by
  refine ⟨fun _ => rfl, fun x q hx hpos => ?_⟩
  by_cases h0 : q = 0
  · subst h0
    show normalizeValue (pyStr 0) = some 0
    decide
  · rw [pyStr_positional_roundtrip q h0 hpos, round15_of_normalized x q hx]

/-- Witness for C7: the value of `"3k3"` (`33000.0`) renders positionally and
re-normalizes to itself. -/
theorem c7_normalize_deterministic_and_stable_witness :
    normalizeValue "3k3" = normalizeValue "3k3" ∧
    normalizeValue (pyStr 33000) = some 33000 :=
  ⟨c7_normalize_deterministic_and_stable.1 "3k3",
   c7_normalize_deterministic_and_stable.2 "3k3" 33000 (by decide) (by decide)⟩
